import Mathlib

/-!
Verification of the appointment-availability engine of
`src/services/appointment_service.py`.

Modelling conventions (shallow embedding):

* Instants are integers, counted in minutes.  The configured display
  timezone is modelled as a fixed offset, so `astimezone` is the identity
  on instants and Python `datetime` comparisons are integer comparisons.
* Times-of-day are minutes after midnight (`datetime.strptime("%H:%M")`
  only ever yields whole minutes), and `datetime.combine(day, t)` is
  `1440 * day + t` for a day index `day`; `dt.date()` is `⌊dt / 1440⌋`.
* A raw calendar event is modelled after parsing: `Event.start` and
  `Event.stop` are the values `_parse_datetime` produced for the raw
  `"start"`/`"end"` fields (`none` when the field was missing or
  unparsable).  `Event.stop` models the Python event's `end` field
  (`end` is a keyword in Lean).
* Python `list.sort(key=lambda item: item[0])` is modelled by
  `List.insertionSort` on the first component; the merged result does not
  depend on the order of blocks with equal starts, so any sort by start
  is a faithful model.
* Payload dictionary values are modelled by `JVal` (absent key, string,
  or non-string scalar represented by an integer), with Python
  truthiness.  String-to-instant parsing (`datetime.fromisoformat`
  composed with timezone normalization) is an oracle parameter
  `String → Option Int`; the engine only branches on its success.
* The three user-facing operations return the envelope (or the uncaught
  Python exception, as `Except PyErr`) together with the list of MCP
  tool calls they issued, in order.
-/

namespace Appt

/-- A calendar event as seen after `_parse_datetime` has run on its raw
`start`/`end` fields: `none` means missing or unparsable. -/
structure Event where
  start : Option Int
  stop : Option Int
deriving DecidableEq, Repr

/-- Clamp of `AppointmentService.__init__` line 66: the configured slot
duration is `timedelta(minutes=max(1, default_duration_minutes))`. -/
def slot_duration (default_duration_minutes : Int) : Int :=
  max 1 default_duration_minutes

/-- One iteration of the event loop of `_extract_busy_intervals`
(lines 324-345): skip events without a parsable start, default a missing
end to `start + duration`, skip events fully outside `[day_start, day_end)`,
clip the rest to the window and drop empty clips. -/
def clip_event (duration day_start day_end : Int) (e : Event) :
    Option (Int × Int) :=
  match e.start with
  | none => none
  | some s =>
    let en := e.stop.getD (s + duration)
    if en ≤ day_start ∨ day_end ≤ s then none
    else
      let cs := max s day_start
      let ce := min en day_end
      if ce ≤ cs then none else some (cs, ce)

/-- The sort relation of `blocks.sort(key=lambda item: item[0])`
(line 350): compare starts. -/
def startLE (a c : Int × Int) : Prop := a.1 ≤ c.1

instance : DecidableRel startLE := fun a c => inferInstanceAs (Decidable (a.1 ≤ c.1))

instance : IsTotal (Int × Int) startLE := ⟨fun a c => le_total a.1 c.1⟩

instance : IsTrans (Int × Int) startLE := ⟨fun _ _ _ => le_trans⟩

/-- The left-to-right sweep of `_extract_busy_intervals` (lines 352-358):
`last` is the running merged interval (the mutable `merged[-1]` of the
Python code); a block whose start is `≤` the running end extends the
running end, otherwise the running interval is closed. -/
def sweep : Int × Int → List (Int × Int) → List (Int × Int)
  | last, [] => [last]
  | last, cur :: rest =>
    if cur.1 ≤ last.2 then sweep (last.1, max last.2 cur.2) rest
    else last :: sweep cur rest

/-- Sort-and-sweep tail of `_extract_busy_intervals` (lines 347-360). -/
def merge_blocks (blocks : List (Int × Int)) : List (Int × Int) :=
  match blocks.insertionSort startLE with
  | [] => []
  | b :: rest => sweep b rest

/-- Model of `_extract_busy_intervals` (lines 316-360): clip each event to
the day window, sort the surviving blocks by start, and coalesce
overlapping or touching blocks in a single sweep. -/
def extract_busy_intervals (duration : Int) (events : List Event)
    (day_start day_end : Int) : List (Int × Int) :=
  merge_blocks (events.filterMap (clip_event duration day_start day_end))

/-- The spec-level merge on interval lists (section 8 of the spec applies
the merger to a plain interval list): each interval is fed back through
`_extract_busy_intervals` as an event with explicit start and end. -/
def merge_intervals (duration day_start day_end : Int)
    (xs : List (Int × Int)) : List (Int × Int) :=
  extract_busy_intervals duration (xs.map fun p => ⟨some p.1, some p.2⟩)
    day_start day_end

/-- Model of `_has_conflict` (lines 398-407): the half-open overlap test
`start < busy_end and end > busy_start` against each busy interval. -/
def has_conflict (s e : Int) (busy : List (Int × Int)) : Bool :=
  busy.any (fun b => s < b.2 ∧ b.1 < e)

/-- The inner `while cursor + duration <= limit` loop of `_generate_slots`
(lines 372-380 against a busy start, lines 386-394 against `day_end`):
the list of slot start times emitted before the cursor passes `limit`.
The guard `0 < d` reflects that the service's duration is clamped to at
least one minute at construction (`slot_duration`), which is what makes
the Python loop terminate. -/
def emit (d cursor limit : Int) : List Int :=
  if _h : 0 < d ∧ cursor + d ≤ limit then
    cursor :: emit d (cursor + d) limit
  else []
termination_by (limit - cursor).toNat
decreasing_by omega

/-- The outer loop of `_generate_slots` (lines 371-394): for each busy
interval emit slots up to its start, jump the cursor past its end
(`cursor = max(cursor, busy_end)`, where the cursor after the inner loop
is `cursor + d * (number emitted)`), break once the cursor reaches
`day_end`, and finally tile the remainder of the day. -/
def generate_starts (d day_end : Int) : Int → List (Int × Int) → List Int
  | cursor, [] => emit d cursor day_end
  | cursor, (bs, be) :: rest =>
    let xs := emit d cursor bs
    let c2 := max (cursor + d * xs.length) be
    if day_end ≤ c2 then xs
    else xs ++ generate_starts d day_end c2 rest

/-- Model of `_generate_slots` (lines 362-396), with each slot represented
by its `(start, end)` pair; `slot_id` and the timezone are functions of
`start` and of the configuration and carry no further information. -/
def generate_slots (d day_start day_end : Int) (busy : List (Int × Int)) :
    List (Int × Int) :=
  (generate_starts d day_end day_start busy).map (fun c => (c, c + d))

/-- Safeguard of `AppointmentService.__init__` lines 72-75: if the
configured workday end is not after the configured start, it is replaced
by 23:59 (minute 1439). -/
def mk_workday_end (workday_start workday_end : Nat) : Nat :=
  if workday_end ≤ workday_start then 23 * 60 + 59 else workday_end

/-- Model of `_day_boundaries` (lines 451-458): combine the day with the
two times-of-day; if the resulting end is not after the start, extend it
by one full day (1440 minutes). -/
def day_boundaries (day : Int) (workday_start workday_end : Nat) :
    Int × Int :=
  let ds : Int := 1440 * day + workday_start
  let de : Int := 1440 * day + workday_end
  if de ≤ ds then (ds, ds + 1440) else (ds, de)

/-! ### The three user-facing operations -/

/-- A Python payload value: absent key (or `None`), a string, or a
non-string scalar represented by an integer. -/
inductive JVal where
  | vnone : JVal
  | vstr : String → JVal
  | vint : Int → JVal
deriving DecidableEq, Repr

/-- Python truthiness for `JVal`. -/
def truthy : JVal → Bool
  | .vnone => false
  | .vstr s => !(s == "")
  | .vint n => !(n == 0)

/-- Python `a or b`: the first operand if truthy, otherwise the second. -/
def pyOr (a b : JVal) : JVal :=
  if truthy a then a else b

/-- Whether a `JVal` is a Python string. -/
def JVal.isStr : JVal → Bool
  | .vstr _ => true
  | _ => false

/-- Rendering of a value inside a Python f-string. -/
def JVal.render : JVal → String
  | .vnone => "None"
  | .vstr s => s
  | .vint n => toString n

/-- Model of `_parse_datetime` (lines 429-449) on payload values: falsy
values and non-strings parse to `None`; a non-empty string is handed to
the ISO-format parser (the oracle `parseDT`, which already folds in the
timezone normalization of lines 446-449). -/
def parse_datetime (parseDT : String → Option Int) (v : JVal) : Option Int :=
  if truthy v = false then none
  else
    match v with
    | .vstr s => parseDT s
    | _ => none

/-- Resolution of the booking end time (lines 168 and 203):
`self._parse_datetime(slot_end_str) if slot_end_str else start_dt + duration`. -/
def resolve_end (parseDT : String → Option Int) (d : Int) (v : JVal)
    (start : Int) : Option Int :=
  if truthy v then parse_datetime parseDT v else some (start + d)

/-- The uncaught Python exception the engine can leak (see `fetch_slots`
line 136: `datetime.fromisoformat` on a non-string raises `TypeError`,
which the surrounding `except ValueError` does not catch). -/
inductive PyErr where
  | typeError : PyErr
deriving DecidableEq, Repr

/-- The uniform result dictionary of the three operations. -/
structure Envelope where
  success : Bool
  error : Option String := none
  message : Option String := none
  slots : Option (List (Int × Int)) := none
  available : Option Bool := none
  event_id : Option (Option String) := none
deriving DecidableEq, Repr

/-- Arguments of a `list_events` MCP call (lines 290-298). -/
structure ListArgs where
  calendar_id : String
  time_min : Int
  time_max : Int
  max_results : Nat
deriving DecidableEq, Repr

/-- Arguments of a `create_event` MCP call (lines 240-254). -/
structure CreateArgs where
  calendar_id : String
  summary : String
  description : String
  start_value : Int
  end_value : Int
  attendees : Option String
deriving DecidableEq, Repr

/-- One remote MCP tool call issued by the engine. -/
inductive RCall where
  | listEvents : ListArgs → RCall
  | createEvent : CreateArgs → RCall
deriving DecidableEq, Repr

/-- The configuration surface the three operations read (constructor
arguments, read once): calendar id, default duration, raw working-window
times-of-day in minutes. -/
structure Config where
  calendar_id : String
  default_duration_minutes : Int
  workday_start : Nat
  workday_end : Nat

/-- The day window the service uses for the day containing instant `t`:
`_day_boundaries` applied to `t.date()` with the workday end
fixed at construction. -/
def window_for (cfg : Config) (t : Int) : Int × Int :=
  day_boundaries (Int.fdiv t 1440) cfg.workday_start
    (mk_workday_end cfg.workday_start cfg.workday_end)

/-- The freshly merged busy list for the day containing instant `t`,
derived from the events the backend returned (lines 216-219 of
`book_slot`, lines 172-175 of `check_availability`). -/
def busy_for (cfg : Config) (events : List Event) (t : Int) :
    List (Int × Int) :=
  extract_busy_intervals (slot_duration cfg.default_duration_minutes)
    events (window_for cfg t).1 (window_for cfg t).2

/-- The `list_events` request for a day window (lines 290-298):
`max_results` is the literal 250. -/
def list_events_args (cfg : Config) (w : Int × Int) : ListArgs :=
  ⟨cfg.calendar_id, w.1, w.2, 250⟩

/-- Payload of `fetch_slots`: only the `date` key is read. -/
structure FetchPayload where
  date : JVal

/-- Model of `fetch_slots` (lines 129-153).  `parseDay` is the oracle for
`datetime.fromisoformat(...).date()` on strings; a truthy non-string date
reaches `fromisoformat` directly (line 136) and raises `TypeError`, which
only `except ValueError` guards. -/
def fetch_slots (cfg : Config) (parseDay : String → Option Int)
    (listResp : Except String (List Event)) (p : FetchPayload) :
    Except PyErr Envelope × List RCall :=
  if truthy p.date = false then
    (.ok { success := false, error := some ("Missing required date parameter.") }, [])
  else
    match p.date with
    | .vstr s =>
      match parseDay s with
      | none =>
        (.ok { success := false, error := some ("Invalid date format. Use YYYY-MM-DD.") }, [])
      | some day =>
        let w := day_boundaries day cfg.workday_start
          (mk_workday_end cfg.workday_start cfg.workday_end)
        let call := RCall.listEvents (list_events_args cfg w)
        match listResp with
        | .error msg => (.ok { success := false, error := some msg }, [call])
        | .ok events =>
          let d := slot_duration cfg.default_duration_minutes
          let busy := extract_busy_intervals d events w.1 w.2
          (.ok { success := true, slots := some (generate_slots d w.1 w.2 busy) }, [call])
    | _ => (.error PyErr.typeError, [])

/-- Payload of `check_availability`: the keys read in lines 157-159. -/
structure CheckPayload where
  slot_id : JVal
  date : JVal
  start_time : JVal
  end_time : JVal

/-- Model of `check_availability` (lines 155-190). -/
def check_availability (cfg : Config) (parseDT : String → Option Int)
    (listResp : Except String (List Event)) (p : CheckPayload) :
    Except PyErr Envelope × List RCall :=
  match pyOr p.date p.start_time with
  | .vnone => (.ok { success := false, error := some ("Missing slot start time.") }, [])
  | v =>
    match parse_datetime parseDT v with
    | none => (.ok { success := false, error := some ("Could not parse slot start time.") }, [])
    | some start_dt =>
      match resolve_end parseDT (slot_duration cfg.default_duration_minutes)
          p.end_time start_dt with
      | none => (.ok { success := false, error := some ("Could not determine slot end time.") }, [])
      | some end_dt =>
        let call := RCall.listEvents (list_events_args cfg (window_for cfg start_dt))
        match listResp with
        | .error msg => (.ok { success := false, error := some msg }, [call])
        | .ok events =>
          let conflict := has_conflict start_dt end_dt (busy_for cfg events start_dt)
          let msg := (if truthy p.slot_id then "Slot " ++ p.slot_id.render ++ " " else "") ++
            (if conflict then "is no longer available." else "is available.")
          (.ok { success := true, available := some (!conflict), message := some msg }, [call])

/-- Payload of `book_slot`: the keys read in lines 194-211. -/
structure BookPayload where
  date : JVal
  start_time : JVal
  end_time : JVal
  patient_name : JVal
  name : JVal
  patient_phone : JVal
  phone : JVal
  doctor : JVal
  notes : JVal
  patient_email : JVal
  email : JVal

/-- The `create_event` request body built in lines 229-254. -/
def create_args (cfg : Config) (p : BookPayload) (start_dt end_dt : Int) :
    CreateArgs :=
  let pname := pyOr p.patient_name p.name
  let summary0 := "Appointment with " ++ pname.render
  let summary := if truthy p.doctor then p.doctor.render ++ " - " ++ summary0 else summary0
  let descr0 := "Patient phone: " ++ (pyOr p.patient_phone p.phone).render
  let descr := if truthy p.notes then descr0 ++ "\nNotes: " ++ p.notes.render else descr0
  let pmail := pyOr p.patient_email p.email
  ⟨cfg.calendar_id, summary, descr, start_dt, end_dt,
    if truthy pmail then some pmail.render else none⟩

/-- Model of `book_slot` (lines 192-273): parse and validate the payload,
re-fetch the day's events, re-check the candidate interval against the
freshly merged busy list, and only then issue `create_event`.
`createResp` is the backend's answer to `create_event`, reduced to the
created event's id. -/
def book_slot (cfg : Config) (parseDT : String → Option Int)
    (listResp : Except String (List Event))
    (createResp : Except String (Option String)) (p : BookPayload) :
    Except PyErr Envelope × List RCall :=
  match pyOr p.date p.start_time with
  | .vnone => (.ok { success := false, error := some ("Missing slot start time.") }, [])
  | v =>
    match parse_datetime parseDT v with
    | none => (.ok { success := false, error := some ("Invalid slot start time.") }, [])
    | some start_dt =>
      match resolve_end parseDT (slot_duration cfg.default_duration_minutes)
          p.end_time start_dt with
      | none => (.ok { success := false, error := some ("Invalid slot end time.") }, [])
      | some end_dt =>
        if truthy (pyOr p.patient_name p.name) = false ∨
            truthy (pyOr p.patient_phone p.phone) = false then
          (.ok { success := false, error := some ("Patient name and phone number are required.") }, [])
        else
          let call := RCall.listEvents (list_events_args cfg (window_for cfg start_dt))
          match listResp with
          | .error msg => (.ok { success := false, error := some msg }, [call])
          | .ok events =>
            if has_conflict start_dt end_dt (busy_for cfg events start_dt) then
              (.ok { success := false, error := some ("The selected time is no longer available.") }, [call])
            else
              let cc := RCall.createEvent (create_args cfg p start_dt end_dt)
              match createResp with
              | .error msg => (.ok { success := false, error := some msg }, [call, cc])
              | .ok eid =>
                let msg := "Appointment booked for " ++ (pyOr p.patient_name p.name).render ++ "."
                (.ok { success := true, event_id := some eid, message := some msg }, [call, cc])

/-- Well-formedness of a returned envelope: a failure envelope always
carries an `error` field. -/
def envelope_wf (e : Envelope) : Bool :=
  e.success || e.error.isSome

/-- An operation result that stayed inside the envelope contract: no
exception escaped and the envelope is well-formed. -/
def returns_envelope (r : Except PyErr Envelope × List RCall) : Bool :=
  match r.1 with
  | .ok e => envelope_wf e
  | .error _ => false

/-- The payloads on which `fetch_slots` leaks a `TypeError`: a truthy
non-string `date` value. -/
def fetch_raises (v : JVal) : Bool :=
  truthy v && !v.isStr

/-- Whether a remote call respects the 250-event cap. -/
def rcall_capped : RCall → Bool
  | .listEvents a => a.max_results == 250
  | .createEvent _ => true

/-! ### Properties of the interval merger -/

theorem clip_event_mem {duration day_start day_end : Int} {e : Event} {p : Int × Int}
    (h : clip_event duration day_start day_end e = some p) :
    day_start ≤ p.1 ∧ p.2 ≤ day_end ∧ p.1 < p.2 := by
  unfold clip_event at h
  rcases e with ⟨s?, e?⟩
  cases s? with
  | none => simp at h
  | some s =>
    simp only at h
    by_cases h1 : e?.getD (s + duration) ≤ day_start ∨ day_end ≤ s
    · rw [if_pos h1] at h
      exact absurd h (by simp)
    · rw [if_neg h1] at h
      by_cases h2 : e?.getD (s + duration) ⊓ day_end ≤ s ⊔ day_start
      · rw [if_pos h2] at h
        exact absurd h (by simp)
      · rw [if_neg h2] at h
        injection h with h3
        subst h3
        refine ⟨by simp, by simp, by omega⟩

/-- Main sweep invariant: a sorted list of positive-width blocks is
coalesced into a separated list of positive-width blocks whose starts all
lie at or after the running interval's start. -/
theorem sweep_spec : ∀ (rest : List (Int × Int)) (b : Int × Int),
    (b :: rest).Pairwise startLE →
    (∀ x ∈ b :: rest, x.1 < x.2) →
    (sweep b rest).Pairwise (fun a c => a.2 < c.1) ∧
      (∀ x ∈ sweep b rest, x.1 < x.2) ∧
      (∀ x ∈ sweep b rest, b.1 ≤ x.1)
  | [], b => by
    intro _ hw
    refine ⟨List.pairwise_singleton _ _, ?_, ?_⟩ <;> simp [sweep]
    exact hw b (by simp)
  | c :: rest, b => by
    intro hsort hw
    have hbc : startLE b c := (List.pairwise_cons.1 hsort).1 c (by simp)
    have hbw : b.1 < b.2 := hw b (by simp)
    have hcw : c.1 < c.2 := hw c (by simp)
    unfold sweep
    split_ifs with hmerge
    · -- `c` extends the running interval
      have hsort' : ((b.1, max b.2 c.2) :: rest).Pairwise startLE := by
        rcases List.pairwise_cons.1 hsort with ⟨hb, hrest⟩
        rcases List.pairwise_cons.1 hrest with ⟨hc, hrest'⟩
        exact List.pairwise_cons.2 ⟨fun x hx => le_trans hbc (hc x hx), hrest'⟩
      have hw' : ∀ x ∈ (b.1, max b.2 c.2) :: rest, x.1 < x.2 := by
        intro x hx
        rcases List.mem_cons.1 hx with h | h
        · subst h; simp; omega
        · exact hw x (by simp [h])
      rcases sweep_spec rest (b.1, max b.2 c.2) hsort' hw' with ⟨h1, h2, h3⟩
      exact ⟨h1, h2, h3⟩
    · -- the running interval is closed before `c`
      have hsort' : (c :: rest).Pairwise startLE := (List.pairwise_cons.1 hsort).2
      have hw' : ∀ x ∈ c :: rest, x.1 < x.2 := fun x hx => hw x (by simp [hx])
      rcases sweep_spec rest c hsort' hw' with ⟨h1, h2, h3⟩
      push_neg at hmerge
      refine ⟨List.pairwise_cons.2 ⟨?_, h1⟩, ?_, ?_⟩
      · intro x hx
        exact lt_of_lt_of_le hmerge (h3 x hx)
      · intro x hx
        rcases List.mem_cons.1 hx with h | h
        · subst h; exact hbw
        · exact h2 x h
      · intro x hx
        rcases List.mem_cons.1 hx with h | h
        · subst h; exact le_refl _
        · exact le_trans hbc (h3 x h)

/-- The sweep only produces intervals inside any window that contains all
of its input blocks. -/
theorem sweep_window : ∀ (rest : List (Int × Int)) (b : Int × Int) (lo hi : Int),
    (∀ x ∈ b :: rest, lo ≤ x.1 ∧ x.2 ≤ hi) →
    ∀ x ∈ sweep b rest, lo ≤ x.1 ∧ x.2 ≤ hi
  | [], b => by
    intro lo hi hin x hx
    simp [sweep] at hx
    subst hx
    exact hin _ (by simp)
  | c :: rest, b => by
    intro lo hi hin x hx
    unfold sweep at hx
    split_ifs at hx with hmerge
    · refine sweep_window rest (b.1, max b.2 c.2) lo hi ?_ x hx
      intro y hy
      rcases List.mem_cons.1 hy with h | h
      · subst h
        have hb := hin b (by simp)
        have hc := hin c (by simp)
        simp
        exact ⟨hb.1, hb.2, hc.2⟩
      · exact hin y (by simp [h])
    · rcases List.mem_cons.1 hx with h | h
      · subst h; exact hin _ (by simp)
      · exact sweep_window rest c lo hi (fun y hy => hin y (by simp [hy])) x h

/-- Sweeping an already separated list leaves it unchanged. -/
theorem sweep_of_separated : ∀ (rest : List (Int × Int)) (b : Int × Int),
    (b :: rest).Pairwise (fun a c => a.2 < c.1) →
    sweep b rest = b :: rest
  | [], b => by intro _; rfl
  | c :: rest, b => by
    intro hsep
    have hbc : b.2 < c.1 := (List.pairwise_cons.1 hsep).1 c (by simp)
    unfold sweep
    rw [if_neg (by omega)]
    rw [sweep_of_separated rest c (List.pairwise_cons.1 hsep).2]

/-- The merged list of any positive-width blocks is separated with
positive widths. -/
theorem merge_blocks_spec (blocks : List (Int × Int))
    (hw : ∀ x ∈ blocks, x.1 < x.2) :
    (merge_blocks blocks).Pairwise (fun a c => a.2 < c.1) ∧
      ∀ x ∈ merge_blocks blocks, x.1 < x.2 := by
  unfold merge_blocks
  have hsort : (blocks.insertionSort startLE).Pairwise startLE :=
    List.sorted_insertionSort startLE blocks
  have hmem : ∀ x ∈ blocks.insertionSort startLE, x.1 < x.2 := by
    intro x hx
    exact hw x ((List.mem_insertionSort startLE).1 hx)
  cases hs : blocks.insertionSort startLE with
  | nil => simp
  | cons b rest =>
    rw [hs] at hsort hmem
    exact ⟨(sweep_spec rest b hsort hmem).1, (sweep_spec rest b hsort hmem).2.1⟩

/-- The merged list stays inside any window containing the blocks. -/
theorem merge_blocks_window (blocks : List (Int × Int)) (lo hi : Int)
    (hin : ∀ x ∈ blocks, lo ≤ x.1 ∧ x.2 ≤ hi) :
    ∀ x ∈ merge_blocks blocks, lo ≤ x.1 ∧ x.2 ≤ hi := by
  unfold merge_blocks
  have hmem : ∀ x ∈ blocks.insertionSort startLE, lo ≤ x.1 ∧ x.2 ≤ hi := by
    intro x hx
    exact hin x ((List.mem_insertionSort startLE).1 hx)
  cases hs : blocks.insertionSort startLE with
  | nil => simp
  | cons b rest =>
    rw [hs] at hmem
    exact sweep_window rest b lo hi hmem

/-- Merging a list that is already separated with positive widths leaves
it unchanged. -/
theorem merge_blocks_of_separated (blocks : List (Int × Int))
    (hsep : blocks.Pairwise (fun a c => a.2 < c.1))
    (hw : ∀ x ∈ blocks, x.1 < x.2) :
    merge_blocks blocks = blocks := by
  unfold merge_blocks
  have hsorted : blocks.Pairwise startLE := by
    refine List.Pairwise.imp_of_mem ?_ hsep
    intro a c ha hc h
    have := hw a ha
    exact le_of_lt (lt_trans this h)
  rw [List.Sorted.insertionSort_eq hsorted]
  cases blocks with
  | nil => rfl
  | cons b rest => exact sweep_of_separated rest b hsep

/-- Invariant of the extracted busy list: separated (no overlap, no
touching), positive widths, clipped to the day window. -/
theorem extract_spec (duration : Int) (events : List Event)
    (day_start day_end : Int) :
    (extract_busy_intervals duration events day_start day_end).Pairwise
        (fun a c => a.2 < c.1) ∧
      (∀ x ∈ extract_busy_intervals duration events day_start day_end,
        x.1 < x.2) ∧
      (∀ x ∈ extract_busy_intervals duration events day_start day_end,
        day_start ≤ x.1 ∧ x.2 ≤ day_end) := by
  have hw : ∀ x ∈ events.filterMap (clip_event duration day_start day_end),
      x.1 < x.2 := by
    intro x hx
    rcases List.mem_filterMap.1 hx with ⟨e, _, he⟩
    exact (clip_event_mem he).2.2
  have hin : ∀ x ∈ events.filterMap (clip_event duration day_start day_end),
      day_start ≤ x.1 ∧ x.2 ≤ day_end := by
    intro x hx
    rcases List.mem_filterMap.1 hx with ⟨e, _, he⟩
    exact ⟨(clip_event_mem he).1, (clip_event_mem he).2.1⟩
  exact ⟨(merge_blocks_spec _ hw).1, (merge_blocks_spec _ hw).2,
    merge_blocks_window _ _ _ hin⟩

/-- Clipping is the identity on an interval already inside the window. -/
theorem clip_event_of_inside {duration day_start day_end s e : Int}
    (h1 : day_start ≤ s) (h2 : e ≤ day_end) (h3 : s < e) :
    clip_event duration day_start day_end ⟨some s, some e⟩ = some (s, e) := by
  simp only [clip_event, Option.getD_some]
  rw [if_neg (by omega), if_neg (by omega)]
  have hs : s ⊔ day_start = s := by omega
  have he : e ⊓ day_end = e := by omega
  rw [hs, he]

theorem filterMap_eq_self_of {α : Type} (f : α → Option α) :
    ∀ l : List α, (∀ x ∈ l, f x = some x) → l.filterMap f = l
  | [] => by intro _; rfl
  | x :: t => by
    intro h
    rw [List.filterMap_cons, h x (by simp),
      filterMap_eq_self_of f t (fun y hy => h y (by simp [hy]))]

/-- Re-merging any already merged list (separated, positive widths,
inside the window) returns it unchanged. -/
theorem merge_intervals_of_merged (duration day_start day_end : Int)
    (m : List (Int × Int))
    (hsep : m.Pairwise (fun a c => a.2 < c.1))
    (hwid : ∀ x ∈ m, x.1 < x.2)
    (hwin : ∀ x ∈ m, day_start ≤ x.1 ∧ x.2 ≤ day_end) :
    merge_intervals duration day_start day_end m = m := by
  unfold merge_intervals extract_busy_intervals
  rw [List.filterMap_map]
  have hclip : ∀ p ∈ m,
      (clip_event duration day_start day_end ∘ fun p => Event.mk (some p.1) (some p.2)) p =
        some p := by
    intro p hp
    rcases p with ⟨s, e⟩
    exact clip_event_of_inside (hwin _ hp).1 (hwin _ hp).2 (hwid _ hp)
  rw [filterMap_eq_self_of _ m hclip]
  exact merge_blocks_of_separated m hsep hwid

/-! ### Properties of the slot generator -/

theorem emit_eq (d cursor limit : Int) :
    emit d cursor limit =
      if 0 < d ∧ cursor + d ≤ limit then cursor :: emit d (cursor + d) limit
      else [] := by
  rw [emit]
  split <;> rfl

/-- Invariant of the inner emission loop: the emitted starts are spaced by
`d`, lie between the initial cursor and `limit - d`, and all end at or
before the final cursor `cursor + d * length`, which itself cannot fit one
more slot below `limit`. -/
theorem emit_spec (d cursor limit : Int) (hd : 0 < d) :
    (emit d cursor limit).Pairwise (fun a c => a + d ≤ c) ∧
      (∀ s ∈ emit d cursor limit,
        cursor ≤ s ∧ s + d ≤ limit ∧
          s + d ≤ cursor + d * (emit d cursor limit).length) ∧
      cursor ≤ cursor + d * (emit d cursor limit).length ∧
      limit < cursor + d * (emit d cursor limit).length + d := by
  induction cursor, limit using emit.induct d with
  | case1 cursor limit hcond ih =>
    obtain ⟨ih_pw, ih_mem, ih_lb, ih_gt⟩ := ih
    have hlen : 0 ≤ d * ((emit d (cursor + d) limit).length : Int) :=
      mul_nonneg hd.le (by positivity)
    have hdist :
        d * (((emit d (cursor + d) limit).length : Int) + 1) =
          d * (emit d (cursor + d) limit).length + d := by ring
    rw [emit_eq, if_pos hcond]
    simp only [List.length_cons]
    push_cast
    refine ⟨?_, ?_, by omega, by omega⟩
    · refine List.pairwise_cons.2 ⟨?_, ih_pw⟩
      intro s hs
      exact (ih_mem s hs).1
    · intro s hs
      rcases List.mem_cons.1 hs with h | h
      · subst h
        refine ⟨le_refl _, hcond.2, by omega⟩
      · have := ih_mem s h
        refine ⟨by omega, this.2.1, by omega⟩
  | case2 cursor limit hcond =>
    rw [emit_eq, if_neg hcond]
    simp only [List.not_mem_nil, List.length_nil]
    refine ⟨List.Pairwise.nil, by simp, by omega, ?_⟩
    push_neg at hcond
    have := hcond hd
    omega

/-- Master invariant of the outer slot-generation loop: for a separated
busy list whose intervals have positive width and end inside the day,
the generated starts are spaced by at least `d`, lie in
`[cursor, day_end - d]`, and none of them overlaps any busy interval. -/
theorem generate_starts_spec (d day_end : Int) (hd : 0 < d) :
    ∀ (busy : List (Int × Int)) (cursor : Int),
    (∀ x ∈ busy, x.1 < x.2 ∧ x.2 ≤ day_end) →
    busy.Pairwise (fun a c => a.2 < c.1) →
    (generate_starts d day_end cursor busy).Pairwise (fun a c => a + d ≤ c) ∧
      (∀ s ∈ generate_starts d day_end cursor busy,
        cursor ≤ s ∧ s + d ≤ day_end) ∧
      (∀ s ∈ generate_starts d day_end cursor busy,
        ∀ b ∈ busy, ¬(s < b.2 ∧ b.1 < s + d))
  | [], cursor => by
    intro _ _
    refine ⟨(emit_spec d cursor day_end hd).1, ?_, by simp⟩
    intro s hs
    have h := (emit_spec d cursor day_end hd).2.1 s hs
    exact ⟨h.1, h.2.1⟩
  | (bs, be) :: rest, cursor => by
    intro hin hsep
    have hbs : bs < be := (hin (bs, be) (by simp)).1
    have hbe : be ≤ day_end := (hin (bs, be) (by simp)).2
    have hsep_head : ∀ b ∈ rest, be < b.1 :=
      (List.pairwise_cons.1 hsep).1
    obtain ⟨he_pw, he_mem, he_lb, he_gt⟩ := emit_spec d cursor bs hd
    simp only [generate_starts]
    split_ifs with hbreak
    · -- the cursor reached the end of the day: only the slots before `bs`
      refine ⟨he_pw, ?_, ?_⟩
      · intro s hs
        have := he_mem s hs
        exact ⟨this.1, by omega⟩
      · intro s hs b hb
        have hsd := (he_mem s hs).2.1
        rcases List.mem_cons.1 hb with h | h
        · subst h; omega
        · have := hsep_head b h
          omega
    · -- continue after the busy interval
      obtain ⟨ih_pw, ih_mem, ih_conf⟩ :=
        generate_starts_spec d day_end hd rest
          (max (cursor + d * (emit d cursor bs).length) be)
          (fun x hx => hin x (by simp [hx]))
          (List.pairwise_cons.1 hsep).2
      refine ⟨?_, ?_, ?_⟩
      · refine (List.pairwise_append).2 ⟨he_pw, ih_pw, ?_⟩
        intro s hs t ht
        have h1 := (he_mem s hs).2.2
        have h2 := (ih_mem t ht).1
        have h3 : cursor + d * ((emit d cursor bs).length : Int) ≤
            max (cursor + d * (emit d cursor bs).length) be := le_max_left _ _
        omega
      · intro s hs
        rcases List.mem_append.1 hs with h | h
        · have := he_mem s h
          exact ⟨this.1, by omega⟩
        · have := ih_mem s h
          have h3 : cursor ≤ max (cursor + d * (emit d cursor bs).length) be := by
            have := le_max_left (cursor + d * ((emit d cursor bs).length : Int)) be
            omega
          exact ⟨by omega, this.2⟩
      · intro s hs b hb
        rcases List.mem_append.1 hs with h | h
        · have hsd := (he_mem s h).2.1
          rcases List.mem_cons.1 hb with hb' | hb'
          · subst hb'; omega
          · have := hsep_head b hb'
            omega
        · rcases List.mem_cons.1 hb with hb' | hb'
          · subst hb'
            have h2 := (ih_mem s h).1
            have h3 : be ≤ max (cursor + d * (emit d cursor bs).length) be :=
              le_max_right _ _
            omega
          · exact ih_conf s h b hb'

/-- Counting bound: a `d`-spaced list inside `[lo, hi - d]` has at most
`(hi - lo) / d` elements. -/
theorem chain_len : ∀ (l : List Int) (d lo hi : Int),
    (∀ s ∈ l, lo ≤ s ∧ s + d ≤ hi) →
    l.Pairwise (fun a c => a + d ≤ c) →
    lo + d * l.length ≤ hi ∨ l = []
  | [], _, _, _ => by
    intro _ _
    right
    rfl
  | s :: t, d, lo, hi => by
    intro hmem hpw
    left
    have hs := hmem s (by simp)
    have ht : ∀ y ∈ t, s + d ≤ y ∧ y + d ≤ hi := fun y hy =>
      ⟨(List.pairwise_cons.1 hpw).1 y hy, (hmem y (by simp [hy])).2⟩
    rcases chain_len t d (s + d) hi ht (List.pairwise_cons.1 hpw).2 with h | h
    · have hdist : d * ((t.length : Int) + 1) = d * t.length + d := by ring
      simp only [List.length_cons]
      push_cast
      omega
    · subst h
      simp only [List.length_cons, List.length_nil]
      push_cast
      omega

/-! ### Claim theorems -/

/-- C3: for every input event sequence and day window, the busy-interval
list produced by the merger is sorted strictly ascending by start, has
`start < end` for every entry, and contains no two entries that overlap
or touch (each entry ends strictly before the next begins). -/
theorem extract_busy_intervals_merged_invariant (duration : Int)
    (events : List Event) (day_start day_end : Int) :
    (extract_busy_intervals duration events day_start day_end).Pairwise
        (fun a c => a.1 < c.1) ∧
      (extract_busy_intervals duration events day_start day_end).Pairwise
        (fun a c => a.2 < c.1) ∧
      ∀ x ∈ extract_busy_intervals duration events day_start day_end,
        x.1 < x.2 := by
  obtain ⟨hsep, hwid, _⟩ := extract_spec duration events day_start day_end
  refine ⟨?_, hsep, hwid⟩
  refine List.Pairwise.imp_of_mem ?_ hsep
  intro a c ha _ h
  have := hwid a ha
  omega

/-- C4: the interval-merge operation is idempotent: for any interval list
and any day window, merging the output of the merge returns it
unchanged. -/
theorem merge_intervals_idempotent (duration day_start day_end : Int)
    (xs : List (Int × Int)) :
    merge_intervals duration day_start day_end
        (merge_intervals duration day_start day_end xs) =
      merge_intervals duration day_start day_end xs := by
  obtain ⟨hsep, hwid, hwin⟩ :=
    extract_spec duration (xs.map fun p => Event.mk (some p.1) (some p.2))
      day_start day_end
  exact merge_intervals_of_merged duration day_start day_end _ hsep hwid hwin

set_option maxRecDepth 2000 in
/-- C2: with working window 09:00-17:00 (minutes 540-1020), duration 30,
and the single merged busy interval 10:00-10:30 (600-630), exactly 15
slots are generated, starting 09:00, 09:30, 10:30, ..., 16:30, with no
slot starting at 10:00. -/
theorem generate_slots_scenario_a :
    generate_slots 30 540 1020 [(600, 630)] =
      [(540, 570), (570, 600), (630, 660), (660, 690), (690, 720),
       (720, 750), (750, 780), (780, 810), (810, 840), (840, 870),
       (870, 900), (900, 930), (930, 960), (960, 990), (990, 1020)] := by
  simp [generate_slots, generate_starts, emit]

/-- C5: for every day window and every busy list satisfying the merged
invariant (clipped to the window, positive widths, separated), no
generated slot conflicts, under the half-open overlap test of
`_has_conflict`, with any busy interval used to produce it. -/
theorem generate_slots_no_conflict (d day_start day_end : Int)
    (busy : List (Int × Int)) (hd : 0 < d)
    (hin : ∀ x ∈ busy, day_start ≤ x.1 ∧ x.1 < x.2 ∧ x.2 ≤ day_end)
    (hsep : busy.Pairwise (fun a c => a.2 < c.1)) :
    ∀ p ∈ generate_slots d day_start day_end busy,
      has_conflict p.1 p.2 busy = false := by
  intro p hp
  rcases List.mem_map.1 hp with ⟨s, hs, rfl⟩
  obtain ⟨_, _, hconf⟩ := generate_starts_spec d day_end hd busy day_start
    (fun x hx => ⟨(hin x hx).2.1, (hin x hx).2.2⟩) hsep
  simp only [has_conflict, List.any_eq_false, decide_eq_true_eq]
  intro b hb
  exact hconf s hs b hb

/-- Witness for C5 at the concrete scenario-A input. -/
theorem generate_slots_no_conflict_witness :
    (0 : Int) < 30 ∧
      ∀ p ∈ generate_slots 30 540 1020 [(600, 630)],
        has_conflict p.1 p.2 [(600, 630)] = false :=
  ⟨by decide, generate_slots_no_conflict 30 540 1020 [(600, 630)]
    (by decide) (by decide) (by decide)⟩

/-- C6: for every day window and busy list satisfying the merged
invariant, every generated slot has width exactly `d` and lies inside
`[day_start, day_end]`, and the slots are strictly ordered by start and
pairwise non-overlapping. -/
theorem generate_slots_shape (d day_start day_end : Int)
    (busy : List (Int × Int)) (hd : 0 < d)
    (hin : ∀ x ∈ busy, day_start ≤ x.1 ∧ x.1 < x.2 ∧ x.2 ≤ day_end)
    (hsep : busy.Pairwise (fun a c => a.2 < c.1)) :
    (∀ p ∈ generate_slots d day_start day_end busy,
        p.2 - p.1 = d ∧ day_start ≤ p.1 ∧ p.2 ≤ day_end) ∧
      (generate_slots d day_start day_end busy).Pairwise
        (fun a c => a.1 < c.1 ∧ a.2 ≤ c.1) := by
  obtain ⟨hpw, hmem, _⟩ := generate_starts_spec d day_end hd busy day_start
    (fun x hx => ⟨(hin x hx).2.1, (hin x hx).2.2⟩) hsep
  constructor
  · intro p hp
    rcases List.mem_map.1 hp with ⟨s, hs, rfl⟩
    have := hmem s hs
    exact ⟨by omega, this.1, this.2⟩
  · rw [generate_slots, List.pairwise_map]
    refine hpw.imp ?_
    intro a c h
    exact ⟨by omega, by omega⟩

/-- Witness for C6 at the concrete scenario-A input. -/
theorem generate_slots_shape_witness :
    (∀ p ∈ generate_slots 30 540 1020 [(600, 630)],
        p.2 - p.1 = 30 ∧ 540 ≤ p.1 ∧ p.2 ≤ 1020) ∧
      (generate_slots 30 540 1020 [(600, 630)]).Pairwise
        (fun a c => a.1 < c.1 ∧ a.2 ≤ c.1) :=
  generate_slots_shape 30 540 1020 [(600, 630)] (by decide) (by decide)
    (by decide)

/-- C7: both working-window safeguards: at construction an end time not
after the start time is replaced by 23:59, and when applied to a calendar
date a non-positive window is extended by exactly one full day; the
resulting window is always non-empty. -/
theorem workday_window_safeguards (s e : Nat) (day : Int) :
    (e ≤ s → mk_workday_end s e = 23 * 60 + 59) ∧
      ((e : Int) ≤ (s : Int) →
        day_boundaries day s e = (1440 * day + s, 1440 * day + s + 1440)) ∧
      (day_boundaries day s (mk_workday_end s e)).1 <
        (day_boundaries day s (mk_workday_end s e)).2 := by
  refine ⟨?_, ?_, ?_⟩
  · intro h
    simp [mk_workday_end, h]
  · intro h
    simp only [day_boundaries]
    rw [if_pos (by omega)]
  · simp only [day_boundaries]
    split_ifs with h
    · simp
    · simp
      omega

/-- Witness for C7: an equal start and end configuration on day 0. -/
theorem workday_window_safeguards_witness :
    mk_workday_end 600 600 = 23 * 60 + 59 ∧
      day_boundaries 0 600 600 = (1440 * 0 + 600, 1440 * 0 + 600 + 1440) :=
  ⟨(workday_window_safeguards 600 600 0).1 (by decide),
    (workday_window_safeguards 600 600 0).2.1 (by decide)⟩

/-- C10: the configured duration is clamped to at least one minute for
every configuration value, and consequently slot generation yields a
finite list: its length is bounded by the day window divided by the
duration (stated multiplicatively). -/
theorem slot_duration_positive_and_generation_bounded (n : Int)
    (day_start day_end : Int) (busy : List (Int × Int))
    (hin : ∀ x ∈ busy, day_start ≤ x.1 ∧ x.1 < x.2 ∧ x.2 ≤ day_end)
    (hsep : busy.Pairwise (fun a c => a.2 < c.1)) :
    1 ≤ slot_duration n ∧
      slot_duration n *
          ((generate_slots (slot_duration n) day_start day_end busy).length : Int) ≤
        max (day_end - day_start) 0 := by
  have hd : (0 : Int) < slot_duration n := by
    unfold slot_duration
    omega
  refine ⟨by omega, ?_⟩
  obtain ⟨hpw, hmem, _⟩ := generate_starts_spec (slot_duration n) day_end hd
    busy day_start (fun x hx => ⟨(hin x hx).2.1, (hin x hx).2.2⟩) hsep
  rcases chain_len (generate_starts (slot_duration n) day_end day_start busy)
      (slot_duration n) day_start day_end hmem hpw with h | h
  · rw [generate_slots, List.length_map]
    omega
  · rw [generate_slots, List.length_map, h]
    simp

/-- Witness for C10 with a non-positive configured duration. -/
theorem slot_duration_positive_and_generation_bounded_witness :
    1 ≤ slot_duration 0 ∧
      slot_duration 0 *
          ((generate_slots (slot_duration 0) 540 1020 [(600, 630)]).length : Int) ≤
        max (1020 - 540) 0 :=
  slot_duration_positive_and_generation_bounded 0 540 1020 [(600, 630)]
    (by decide) (by decide)

/-- C1: whenever the freshly fetched and merged busy list conflicts with
the candidate interval (after successful parsing and validation),
`book_slot` returns the failure envelope with the conflict message and
issues no `create_event` call. -/
theorem book_slot_conflict_no_create (cfg : Config)
    (parseDT : String → Option Int) (events : List Event)
    (createResp : Except String (Option String)) (p : BookPayload)
    (s e : Int)
    (hs : parse_datetime parseDT (pyOr p.date p.start_time) = some s)
    (he : resolve_end parseDT (slot_duration cfg.default_duration_minutes)
      p.end_time s = some e)
    (hname : truthy (pyOr p.patient_name p.name) = true)
    (hphone : truthy (pyOr p.patient_phone p.phone) = true)
    (hconf : has_conflict s e (busy_for cfg events s) = true) :
    (book_slot cfg parseDT (Except.ok events) createResp p).1 =
        Except.ok { success := false, error := some ("The selected time is no longer available.") } ∧
      ∀ a, RCall.createEvent a ∉
        (book_slot cfg parseDT (Except.ok events) createResp p).2 := by
  cases hval : pyOr p.date p.start_time with
  | vnone =>
    rw [hval] at hs
    simp [parse_datetime, truthy] at hs
  | vint n =>
    rw [hval] at hs
    unfold parse_datetime at hs
    split_ifs at hs
  | vstr str =>
    rw [hval] at hs
    simp only [book_slot, hval, hs, he]
    rw [if_neg (by simp [hname, hphone])]
    rw [if_pos hconf]
    exact ⟨rfl, by simp⟩

/-- Witness for C1: a booking whose slot lands on a freshly observed busy
interval. -/
theorem book_slot_conflict_no_create_witness :
    (book_slot ⟨"primary", 30, 540, 1020⟩ (fun _ => some 600)
          (Except.ok [⟨some 600, some 630⟩]) (Except.ok none)
          ⟨JVal.vstr ("2024-01-01T10:00"), JVal.vnone, JVal.vnone,
            JVal.vstr ("Ann"), JVal.vnone, JVal.vstr ("555"), JVal.vnone,
            JVal.vnone, JVal.vnone, JVal.vnone, JVal.vnone⟩).1 =
        Except.ok { success := false, error := some ("The selected time is no longer available.") } ∧
      ∀ a, RCall.createEvent a ∉
        (book_slot ⟨"primary", 30, 540, 1020⟩ (fun _ => some 600)
          (Except.ok [⟨some 600, some 630⟩]) (Except.ok none)
          ⟨JVal.vstr ("2024-01-01T10:00"), JVal.vnone, JVal.vnone,
            JVal.vstr ("Ann"), JVal.vnone, JVal.vstr ("555"), JVal.vnone,
            JVal.vnone, JVal.vnone, JVal.vnone, JVal.vnone⟩).2 :=
  book_slot_conflict_no_create ⟨"primary", 30, 540, 1020⟩ (fun _ => some 600)
    [⟨some 600, some 630⟩] (Except.ok none)
    ⟨JVal.vstr ("2024-01-01T10:00"), JVal.vnone, JVal.vnone, JVal.vstr ("Ann"),
      JVal.vnone, JVal.vstr ("555"), JVal.vnone, JVal.vnone, JVal.vnone,
      JVal.vnone, JVal.vnone⟩ 600 630
    (by decide) (by decide) (by decide) (by decide) (by decide)

/-- C9: every `list_events` request any of the three operations issues
carries `max_results = 250`, for every configuration, payload, and
backend response. -/
theorem list_events_requests_capped (cfg : Config)
    (parseDay parseDT : String → Option Int)
    (listResp : Except String (List Event))
    (createResp : Except String (Option String))
    (pf : FetchPayload) (pc : CheckPayload) (pb : BookPayload) :
    (fetch_slots cfg parseDay listResp pf).2.all rcall_capped = true ∧
      (check_availability cfg parseDT listResp pc).2.all rcall_capped = true ∧
      (book_slot cfg parseDT listResp createResp pb).2.all rcall_capped = true := by
  refine ⟨?_, ?_, ?_⟩
  · unfold fetch_slots
    repeat' split
    all_goals simp [rcall_capped, list_events_args]
  · unfold check_availability
    repeat' split
    all_goals simp [rcall_capped, list_events_args]
  · unfold book_slot
    repeat' split
    all_goals simp [rcall_capped, list_events_args]

/-- C8 counterexample: a truthy non-string `date` value makes
`fetch_slots` leak a `TypeError` instead of returning an envelope. -/
theorem fetch_slots_raises_on_int_date :
    fetch_slots ⟨"primary", 30, 540, 1020⟩ (fun _ => none) (Except.ok [])
        ⟨JVal.vint 1⟩ =
      (Except.error PyErr.typeError, []) := rfl

/-- C8 (amended): `check_availability` and `book_slot` return a
well-formed envelope (failure implies an error message) for every
payload and backend response, and `fetch_slots` does so exactly when its
`date` value is not a truthy non-string; on a truthy non-string date it
raises `TypeError` past the boundary. -/
theorem ops_return_envelopes (cfg : Config)
    (parseDay parseDT : String → Option Int)
    (listResp : Except String (List Event))
    (createResp : Except String (Option String))
    (pf : FetchPayload) (pc : CheckPayload) (pb : BookPayload) :
    returns_envelope (check_availability cfg parseDT listResp pc) = true ∧
      returns_envelope (book_slot cfg parseDT listResp createResp pb) = true ∧
      returns_envelope (fetch_slots cfg parseDay listResp pf) =
        !fetch_raises pf.date := by
  refine ⟨?_, ?_, ?_⟩
  · unfold check_availability
    repeat' split
    all_goals simp [returns_envelope, envelope_wf]
  · unfold book_slot
    repeat' split
    all_goals simp [returns_envelope, envelope_wf]
  · unfold fetch_slots fetch_raises
    repeat' split
    all_goals simp_all [returns_envelope, envelope_wf, truthy, JVal.isStr]

end Appt
